import Mathlib

/-!
Verification of the appointment scheduling and conflict-resolution engine
of a voice-driven scheduling assistant.  Two variants of the engine exist
in the repository: a local JSON-file store (`db_manager.py`, class
`AppointmentManager`) and a Google-Calendar-backed one (`gcal_manager.py`,
class `GoogleCalendarManager`).  Both are embedded below as pure functions:
the store / event list is passed and returned explicitly, and the ambient
timestamp `datetime.now().isoformat()` is passed as an explicit `now`
argument.
-/

namespace SchedDb

/-- An appointment record as stored by `db_manager.py` (a flat JSON object
with exactly these fields; note there is no email field in this variant). -/
structure Appointment where
  customer_name : String
  contact : String
  date : String
  time : String
  service : String
  status : String
  created_at : String
deriving DecidableEq, Repr

/-- Outcome taxonomy of the store operations, one constructor per distinct
return path of the Python methods (`Success...` vs the two error strings). -/
inductive DbResult where
  | success
  | slotUnavailable
  | notFound
deriving DecidableEq, Repr

/-- `base_slots = ["10:00 AM", "02:00 PM", "04:00 PM"]` in
`AppointmentManager.check_availability`. -/
def base_slots : List String := ["10:00 AM", "02:00 PM", "04:00 PM"]

/-- `booked_times`: times of records on `date` with status `confirmed`
(the list comprehension in `check_availability`). -/
def booked_times (date : String) (appts : List Appointment) : List String :=
  (appts.filter (fun a => a.date == date && a.status == "confirmed")).map (·.time)

/-- `AppointmentManager.check_availability`: base slots minus booked times. -/
def check_availability (date : String) (appts : List Appointment) : List String :=
  base_slots.filter (fun slot => !((booked_times date appts).contains slot))

/-- `AppointmentManager.book_appointment` (the second, surviving definition
in the Python class; the first is shadowed).  Returns the result together
with the store that `_save_db` persists (unchanged on failure, since the
error path returns before any mutation). -/
def book_appointment (name contact date time service now : String)
    (data : List Appointment) : DbResult × List Appointment :=
  if time ∈ check_availability date data then
    (.success, data ++ [⟨name, contact, date, time, service, "confirmed", now⟩])
  else
    (.slotUnavailable, data)

/-- The match condition of the `for` loops in `cancel_appointment` and
`modify_appointment`: customer_name, date, time equal and status confirmed. -/
def cancelMatch (name date time : String) (a : Appointment) : Bool :=
  a.customer_name == name && a.date == date && a.time == time && a.status == "confirmed"

/-- The `for`-loop of `cancel_appointment` / `modify_appointment`: walk the
list, and at the FIRST record matching `(name, date, time, confirmed)` flip
its status to cancelled; return that record and the updated list, or `none`
when no record matches. -/
def findCancel (name date time : String) :
    List Appointment → Option (Appointment × List Appointment)
  | [] => none
  | a :: rest =>
    if cancelMatch name date time a then
      some (a, { a with status := "cancelled" } :: rest)
    else
      (findCancel name date time rest).map (fun p => (p.1, a :: p.2))

/-- `AppointmentManager.cancel_appointment`: flip the first confirmed match
to cancelled and save; otherwise report an error and leave the file alone. -/
def cancel_appointment (name date time : String) (data : List Appointment) :
    DbResult × List Appointment :=
  match findCancel name date time data with
  | some p => (.success, p.2)
  | none => (.notFound, data)

/-- `AppointmentManager.modify_appointment`: (1) check the NEW slot is
available; (2) find the OLD confirmed appointment; (3) cancel the old one
in place and append a new confirmed record reusing the old record's
`customer_name`, `contact` and `service` with the new date/time and a fresh
`created_at`. -/
def modify_appointment (name old_date old_time new_date new_time now : String)
    (data : List Appointment) : DbResult × List Appointment :=
  if new_time ∈ check_availability new_date data then
    match findCancel name old_date old_time data with
    | some (tgt, data₁) =>
      (.success, data₁ ++
        [⟨tgt.customer_name, tgt.contact, new_date, new_time, tgt.service,
          "confirmed", now⟩])
    | none => (.notFound, data)
  else
    (.slotUnavailable, data)

/-- A record is a confirmed booking of the pair `(date, time)`. -/
def confirmedAt (date time : String) (a : Appointment) : Bool :=
  a.date == date && a.time == time && a.status == "confirmed"

/-- Number of confirmed records at a given `(date, time)` pair. -/
def confirmedCount (date time : String) (data : List Appointment) : Nat :=
  (data.filter (confirmedAt date time)).length

/-- A record is a cancelled booking of the pair `(date, time)`. -/
def cancelledAt (date time : String) (a : Appointment) : Bool :=
  a.date == date && a.time == time && a.status == "cancelled"

/-- Number of cancelled records at a given `(date, time)` pair. -/
def cancelledCount (date time : String) (data : List Appointment) : Nat :=
  (data.filter (cancelledAt date time)).length

/-- The double-booking invariant: at most one confirmed record per
`(date, time)` pair. -/
def Invariant (data : List Appointment) : Prop :=
  ∀ date time, confirmedCount date time data ≤ 1

/-- One invocation of the Scheduling Engine. -/
inductive Op where
  | book (name contact date time service now : String)
  | cancel (name date time : String)
  | modify (name old_date old_time new_date new_time now : String)

/-- The store produced by one operation (the result string is dropped). -/
def applyOp (data : List Appointment) : Op → List Appointment
  | .book name contact date time service now =>
    (book_appointment name contact date time service now data).2
  | .cancel name date time => (cancel_appointment name date time data).2
  | .modify name od ot nd nt now => (modify_appointment name od ot nd nt now data).2

/-- Run a finite sequence of operations from a given store. -/
def runOps (data : List Appointment) : List Op → List Appointment
  | [] => data
  | op :: ops => runOps (applyOp data op) ops

/-- The persisted `appointments.json` file as `_load_db` sees it: either a
well-formed JSON list of records, or contents that fail JSON parsing. -/
inductive FileContent where
  | valid (data : List Appointment)
  | invalid
deriving DecidableEq

/-- `AppointmentManager._load_db`: parse the file, returning `[]` when a
`json.JSONDecodeError` is raised. -/
def load_db : FileContent → List Appointment
  | .valid data => data
  | .invalid => []

/-- `check_availability` at the file level (it only reads). -/
def fileCheckAvailability (date : String) (fc : FileContent) : List String :=
  check_availability date (load_db fc)

/-- `book_appointment` at the file level: `_save_db` runs only on the
success path, so a failed booking leaves the file bytes untouched. -/
def fileBook (name contact date time service now : String) (fc : FileContent) :
    DbResult × FileContent :=
  match book_appointment name contact date time service now (load_db fc) with
  | (.success, data) => (.success, .valid data)
  | (r, _) => (r, fc)

/-- `cancel_appointment` at the file level: `_save_db` runs only when a
match was found. -/
def fileCancel (name date time : String) (fc : FileContent) :
    DbResult × FileContent :=
  match cancel_appointment name date time (load_db fc) with
  | (.success, data) => (.success, .valid data)
  | (r, _) => (r, fc)

/-- `modify_appointment` at the file level: `_save_db` runs only on the
success path. -/
def fileModify (name old_date old_time new_date new_time now : String)
    (fc : FileContent) : DbResult × FileContent :=
  match modify_appointment name old_date old_time new_date new_time now (load_db fc) with
  | (.success, data) => (.success, .valid data)
  | (r, _) => (r, fc)

end SchedDb

namespace SchedGcal

/-- Gregorian leap-year rule, as `datetime` implements it. -/
def isLeap (y : Nat) : Bool := (y % 4 == 0 && y % 100 != 0) || y % 400 == 0

/-- Length of a month, as `datetime` validates day-of-month. -/
def daysInMonth (y m : Nat) : Nat :=
  if m == 2 then (if isLeap y then 29 else 28)
  else if m == 4 || m == 6 || m == 9 || m == 11 then 30
  else 31

/-- Split a character list at every `'-'` (model of splitting the date
string on the dashes of `"%Y-%m-%d"`). -/
def splitDash : List Char → List (List Char)
  | [] => [[]]
  | c :: cs =>
    if c = '-' then [] :: splitDash cs
    else
      match splitDash cs with
      | [] => [[c]]
      | t :: ts => (c :: t) :: ts

/-- Numeric value of a digit string (what `int` extracts from a matched
`strptime` group). -/
def digitsToNat (cs : List Char) : Nat :=
  cs.foldl (fun n c => 10 * n + (c.toNat - 48)) 0

/-- Model of `datetime.datetime.strptime(date, "%Y-%m-%d")` over ASCII
digits: `%Y` is exactly four digits, `%m` one or two digits valued 1..12,
`%d` one or two digits that must be a real day of that month (`datetime`
raises `ValueError` for e.g. Feb 30 or year 0), and the whole string must
be consumed.  Returns `(year, month, day)`, or `none` for the
`ValueError` case. -/
def parseYMD (s : String) : Option (Nat × Nat × Nat) :=
  match splitDash s.toList with
  | [ys, ms, ds] =>
    if ys.length = 4 ∧ ys.all Char.isDigit
        ∧ 1 ≤ ms.length ∧ ms.length ≤ 2 ∧ ms.all Char.isDigit
        ∧ 1 ≤ ds.length ∧ ds.length ≤ 2 ∧ ds.all Char.isDigit then
      let y := digitsToNat ys
      let m := digitsToNat ms
      let d := digitsToNat ds
      if 1 ≤ y ∧ 1 ≤ m ∧ m ≤ 12 ∧ 1 ≤ d ∧ d ≤ daysInMonth y m then
        some (y, m, d)
      else none
    else none
  | _ => none

/-- Sakamoto's day-of-week formula (0 = Sunday … 6 = Saturday) for the
Gregorian calendar. -/
def sakamoto (y m d : Nat) : Nat :=
  let t := [0, 3, 2, 5, 0, 3, 5, 1, 4, 6, 2, 4]
  let y' := if m < 3 then y - 1 else y
  (y' + y' / 4 - y' / 100 + y' / 400 + t.getD (m - 1) 0 + d) % 7

/-- `datetime.weekday()`: 0 = Monday … 6 = Sunday. -/
def pyWeekday (y m d : Nat) : Nat := (sakamoto y m d + 6) % 7

/-- Zero-pad to two digits. -/
def pad2 (n : Nat) : String := (if n < 10 then "0" else "") ++ toString n

/-- Zero-pad to four digits (`isoformat` prints the year as `%04d`). -/
def pad4 (n : Nat) : String :=
  (if n < 10 then "000" else if n < 100 then "00" else if n < 1000 then "0" else "")
    ++ toString n

/-- `dummy_dt.strftime("%I:%M %p")` for an on-the-hour time: zero-padded
12-hour clock with AM/PM. -/
def slotStr (h : Nat) : String :=
  let h12 := if h % 12 = 0 then 12 else h % 12
  pad2 h12 ++ ":00 " ++ (if h < 12 then "AM" else "PM")

/-- Working hours 9..16 (`WORK_START = 9`, `WORK_END = 17`, one slot per
hour, the last starting at 16:00). -/
def workHours : List Nat := List.range' 9 8

/-- The base slot grid `check_availability` builds for a working day. -/
def gcalBaseSlots : List String := workHours.map slotStr

/-- `_to_iso` for an on-the-hour slot; `Asia/Kolkata` renders as the fixed
`+05:30` offset on contemporary dates. -/
def toIso (y m d hour : Nat) : String :=
  pad4 y ++ "-" ++ pad2 m ++ "-" ++ pad2 d ++ "T" ++ pad2 hour ++ ":00:00+05:30"

/-- A calendar event as `check_availability` consumes it: only
`event['start'].get('dateTime')` matters (absent for all-day events). -/
structure GEvent where
  start : Option String
deriving DecidableEq

/-- `GoogleCalendarManager.check_availability`: empty for unparsable dates
(`ValueError` branch) and weekends (`weekday() >= 5`); otherwise the
09:00–16:00 hourly grid minus every slot whose ISO start time equals some
event's start. -/
def check_availability (date : String) (events : List GEvent) : List String :=
  match parseYMD date with
  | none => []
  | some (y, m, d) =>
    if 5 ≤ pyWeekday y m d then []
    else
      (workHours.filter (fun h =>
        !(events.any (fun e => e.start == some (toIso y m d h))))).map slotStr

/-- The `SERVICES` table, in Python insertion (= iteration) order. -/
def SERVICES : List (String × Nat) :=
  [("checkup", 30), ("general checkup", 30), ("cleaning", 60),
   ("dental cleaning", 60), ("root canal", 90), ("surgery", 120),
   ("extraction", 45), ("consultation", 15), ("consult", 15)]

/-- Python's substring test `key in s`, on character lists. -/
def containsSub (key : List Char) : List Char → Bool
  | [] => key.isEmpty
  | c :: rest => key.isPrefixOf (c :: rest) || containsSub key rest

/-- `str.lower()` on ASCII letters. -/
def lowerChars (cs : List Char) : List Char := cs.map Char.toLower

/-- `str.strip()`: whitespace removed from both ends. -/
def stripChars (cs : List Char) : List Char :=
  ((cs.dropWhile Char.isWhitespace).reverse.dropWhile Char.isWhitespace).reverse

/-- `service_text.lower().strip()` as a character list. -/
def normService (service_text : String) : List Char :=
  stripChars (lowerChars service_text.toList)

/-- `GoogleCalendarManager._get_duration`: 60 for falsy (empty) input, else
the duration of the first `SERVICES` key occurring as a substring of the
lowercased, stripped input; 60 when no key occurs. -/
def get_duration (service_text : String) : Nat :=
  if service_text = "" then 60
  else
    match SERVICES.find? (fun kv => containsSub kv.1.toList (normService service_text)) with
    | some kv => kv.2
    | none => 60

/-- The duration policy as the spec words it (no special-casing of the
empty string): the first known-service key that is a case-insensitive
substring of the stripped input determines the duration; 60 minutes when
no key of the table is a substring. -/
def durationOfSpec (service_text : String) : Nat :=
  match SERVICES.find? (fun kv => containsSub kv.1.toList (normService service_text)) with
  | some kv => kv.2
  | none => 60

/-- Outcome of `GoogleCalendarManager.book_appointment`: one constructor
per distinct return path (success, "Sorry, no slots" and "Slot …
unavailable. Try …" both being slot-unavailable failures carrying the
suggested alternatives). -/
inductive GBookResult where
  | success (duration : Nat)
  | slotUnavailable (alternatives : List String)
deriving DecidableEq

/-- `GoogleCalendarManager.book_appointment`: duration lookup, then
availability check — on failure the reply lists `available_slots[:2]` as
alternatives (none at all when the day has no free slot) and no event is
inserted — then insertion of an event starting at the slot's ISO time. -/
def book_appointment (name contact date time service_type : String)
    (events : List GEvent) : GBookResult × List GEvent :=
  let duration := get_duration service_type
  let avail := check_availability date events
  if time ∈ avail then
    match parseYMD date, workHours.find? (fun h => slotStr h == time) with
    | some (y, m, d), some h =>
      (.success duration, events ++ [⟨some (toIso y m d h)⟩])
    | _, _ => (.success duration, events)
  else if avail = [] then
    (.slotUnavailable [], events)
  else
    (.slotUnavailable (avail.take 2), events)

end SchedGcal

namespace SchedDb

/-! ### Helper lemmas about the local-store engine -/

theorem mem_booked_times_iff {date time : String} {data : List Appointment} :
    time ∈ booked_times date data ↔ ∃ a ∈ data, confirmedAt date time a = true := by
  simp only [booked_times, confirmedAt, List.mem_map, List.mem_filter,
    Bool.and_eq_true, beq_iff_eq]
  aesop

theorem mem_check_availability_iff {date time : String} {data : List Appointment} :
    time ∈ check_availability date data ↔
      time ∈ base_slots ∧ time ∉ booked_times date data := by
  simp [check_availability, List.mem_filter]

theorem confirmedCount_eq_zero {date time : String} {data : List Appointment}
    (h : time ∈ check_availability date data) :
    confirmedCount date time data = 0 := by
  rw [confirmedCount, List.length_eq_zero, List.filter_eq_nil_iff]
  intro a ha hconf
  exact (mem_check_availability_iff.1 h).2 (mem_booked_times_iff.2 ⟨a, ha, hconf⟩)

theorem confirmedCount_append (date time : String) (xs : List Appointment)
    (a : Appointment) :
    confirmedCount date time (xs ++ [a]) =
      confirmedCount date time xs + (if confirmedAt date time a then 1 else 0) := by
  cases h : confirmedAt date time a <;>
    simp [confirmedCount, List.filter_append, List.filter, h]

theorem findCancel_none_iff {n d t : String} {data : List Appointment} :
    findCancel n d t data = none ↔ ∀ a ∈ data, cancelMatch n d t a = false := by
  induction data with
  | nil => simp [findCancel]
  | cons a rest ih =>
    by_cases h : cancelMatch n d t a
    · simp [findCancel, h]
    · simp [findCancel, h, Option.map_eq_none', ih]

theorem findCancel_some {n d t : String} {data data' : List Appointment}
    {tgt : Appointment}
    (h : findCancel n d t data = some (tgt, data')) :
    ∃ pre post,
      data = pre ++ tgt :: post ∧
      data' = pre ++ ({ tgt with status := "cancelled" } :: post) ∧
      (∀ b ∈ pre, cancelMatch n d t b = false) ∧
      cancelMatch n d t tgt = true := by
  induction data generalizing data' with
  | nil => simp [findCancel] at h
  | cons a rest ih =>
    by_cases hm : cancelMatch n d t a
    · rw [findCancel, if_pos hm] at h
      obtain ⟨rfl, rfl⟩ : a = tgt ∧ ({ a with status := "cancelled" } :: rest) = data' := by
        simpa using h
      exact ⟨[], rest, rfl, rfl, by simp, hm⟩
    · rw [findCancel, if_neg hm] at h
      cases hr : findCancel n d t rest with
      | none => rw [hr] at h; simp at h
      | some p =>
        obtain ⟨ptgt, pdata⟩ := p
        rw [hr] at h
        obtain ⟨hp1, hp2⟩ : ptgt = tgt ∧ a :: pdata = data' := by simpa using h
        obtain ⟨pre, post, e1, e2, hpre, htgt⟩ :=
          ih (show findCancel n d t rest = some (tgt, pdata) by rw [hr, hp1])
        refine ⟨a :: pre, post, by simp [e1], by simp [← hp2, e2], ?_, htgt⟩
        intro b hb
        rcases List.mem_cons.1 hb with rfl | hb
        · simpa using hm
        · exact hpre b hb

theorem findCancel_isSome {n d t : String} {data : List Appointment}
    (h : ∃ a ∈ data, cancelMatch n d t a = true) :
    ∃ tgt data', findCancel n d t data = some (tgt, data') := by
  rcases hf : findCancel n d t data with _ | ⟨tgt, data'⟩
  · rcases h with ⟨a, ha, hm⟩
    rw [findCancel_none_iff.1 hf a ha] at hm
    cases hm
  · exact ⟨tgt, data', rfl⟩

theorem confirmedAt_cancelled (date time : String) (a : Appointment) :
    confirmedAt date time { a with status := "cancelled" } = false := by
  simp [confirmedAt, show (("cancelled" : String) == "confirmed") = false from rfl]

theorem confirmedCount_middle (date time : String) (pre post : List Appointment)
    (x : Appointment) :
    confirmedCount date time (pre ++ x :: post) =
      confirmedCount date time pre + (if confirmedAt date time x then 1 else 0)
        + confirmedCount date time post := by
  cases h : confirmedAt date time x <;>
    simp [confirmedCount, List.filter_append, List.filter_cons, h] <;> omega

theorem confirmedCount_findCancel_le {n d t : String} (date time : String)
    {data data' : List Appointment} {tgt : Appointment}
    (h : findCancel n d t data = some (tgt, data')) :
    confirmedCount date time data' ≤ confirmedCount date time data := by
  obtain ⟨pre, post, rfl, rfl, -, -⟩ := findCancel_some h
  rw [confirmedCount_middle, confirmedCount_middle, confirmedAt_cancelled]
  cases h1 : confirmedAt date time tgt <;> simp

theorem invariant_book (name contact date time service now : String)
    {data : List Appointment} (hInv : Invariant data) :
    Invariant (book_appointment name contact date time service now data).2 := by
  intro d t
  by_cases hmem : time ∈ check_availability date data
  · rw [book_appointment, if_pos hmem]
    rw [confirmedCount_append]
    by_cases hconf :
        confirmedAt d t ⟨name, contact, date, time, service, "confirmed", now⟩ = true
    · obtain ⟨rfl, rfl⟩ : date = d ∧ time = t := by simpa [confirmedAt] using hconf
      rw [confirmedCount_eq_zero hmem]
      simp [hconf]
    · rw [if_neg hconf]
      simpa using hInv d t
  · rw [book_appointment, if_neg hmem]
    exact hInv d t

theorem invariant_cancel (name date time : String) {data : List Appointment}
    (hInv : Invariant data) :
    Invariant (cancel_appointment name date time data).2 := by
  intro d t
  cases hf : findCancel name date time data with
  | none => simp only [cancel_appointment, hf]; exact hInv d t
  | some p =>
    obtain ⟨tgt, data'⟩ := p
    simp only [cancel_appointment, hf]
    exact le_trans (confirmedCount_findCancel_le d t hf) (hInv d t)

theorem invariant_modify (name od ot nd nt now : String) {data : List Appointment}
    (hInv : Invariant data) :
    Invariant (modify_appointment name od ot nd nt now data).2 := by
  intro d t
  by_cases hmem : nt ∈ check_availability nd data
  · cases hf : findCancel name od ot data with
    | none =>
      simp only [modify_appointment, if_pos hmem, hf]
      exact hInv d t
    | some p =>
      obtain ⟨tgt, data₁⟩ := p
      simp only [modify_appointment, if_pos hmem, hf]
      rw [confirmedCount_append]
      by_cases hconf : confirmedAt d t
          ⟨tgt.customer_name, tgt.contact, nd, nt, tgt.service, "confirmed", now⟩ = true
      · obtain ⟨rfl, rfl⟩ : nd = d ∧ nt = t := by simpa [confirmedAt] using hconf
        have h0 : confirmedCount nd nt data = 0 := confirmedCount_eq_zero hmem
        have h1 := confirmedCount_findCancel_le nd nt hf
        rw [if_pos hconf]
        omega
      · rw [if_neg hconf]
        simpa using le_trans (confirmedCount_findCancel_le d t hf) (hInv d t)
  · simp only [modify_appointment, if_neg hmem]
    exact hInv d t

theorem invariant_applyOp {data : List Appointment} (hInv : Invariant data)
    (op : Op) : Invariant (applyOp data op) := by
  cases op with
  | book n c d t s now => exact invariant_book n c d t s now hInv
  | cancel n d t => exact invariant_cancel n d t hInv
  | modify n od ot nd nt now => exact invariant_modify n od ot nd nt now hInv

theorem invariant_runOps {data : List Appointment} (hInv : Invariant data)
    (ops : List Op) : Invariant (runOps data ops) := by
  induction ops generalizing data with
  | nil => exact hInv
  | cons op ops ih => exact ih (invariant_applyOp hInv op)

theorem invariant_empty : Invariant ([] : List Appointment) := by
  intro d t
  simp [confirmedCount]

theorem ite_cond_true {α : Type} (a b : α) : (if true = true then a else b) = a :=
  if_pos rfl

theorem ite_cond_false {α : Type} (a b : α) : (if false = true then a else b) = b :=
  if_neg (by simp)

theorem cancelledCount_append (date time : String) (xs : List Appointment)
    (a : Appointment) :
    cancelledCount date time (xs ++ [a]) =
      cancelledCount date time xs + (if cancelledAt date time a then 1 else 0) := by
  cases h : cancelledAt date time a <;>
    simp [cancelledCount, List.filter_append, List.filter, h]

theorem cancelledCount_middle (date time : String) (pre post : List Appointment)
    (x : Appointment) :
    cancelledCount date time (pre ++ x :: post) =
      cancelledCount date time pre + (if cancelledAt date time x then 1 else 0)
        + cancelledCount date time post := by
  cases h : cancelledAt date time x <;>
    simp [cancelledCount, List.filter_append, List.filter_cons, h] <;> omega

theorem cancelMatch_fields {n d t : String} {a : Appointment}
    (h : cancelMatch n d t a = true) :
    a.customer_name = n ∧ a.date = d ∧ a.time = t ∧ a.status = "confirmed" := by
  simpa [cancelMatch, Bool.and_eq_true, beq_iff_eq, and_assoc] using h

theorem not_avail_of_cancelMatch {n d t : String} {data : List Appointment}
    (h : ∃ a ∈ data, cancelMatch n d t a = true) :
    t ∉ check_availability d data := by
  obtain ⟨a, ha, hm⟩ := h
  obtain ⟨-, hd, ht, hs⟩ := cancelMatch_fields hm
  intro hc
  refine (mem_check_availability_iff.1 hc).2 (mem_booked_times_iff.2 ⟨a, ha, ?_⟩)
  simp [confirmedAt, hd, ht, hs]

/-- C1: starting from the empty store, after every finite sequence of
`book`/`cancel`/`modify` operations there is, for every `(date, time)`
pair, at most one record with `status = confirmed`. -/
theorem claim_no_double_booking (ops : List Op) :
    Invariant (runOps [] ops) :=
  invariant_runOps invariant_empty ops

/-- C5: `modify` checks the new slot's availability before locating the old
record (an unavailable new slot yields `SlotUnavailable` regardless of
whether the old record exists), a free new slot with no matching old record
yields `NotFound`, and every failing `modify` leaves the store unchanged
(so the old appointment, if any, is still confirmed). -/
theorem claim_modify_failure_unchanged (name od ot nd nt now : String)
    (data : List Appointment) :
    (nt ∉ check_availability nd data →
      modify_appointment name od ot nd nt now data = (.slotUnavailable, data)) ∧
    (nt ∈ check_availability nd data →
      (∀ a ∈ data, cancelMatch name od ot a = false) →
      modify_appointment name od ot nd nt now data = (.notFound, data)) ∧
    ((modify_appointment name od ot nd nt now data).1 ≠ .success →
      (modify_appointment name od ot nd nt now data).2 = data) := by
  refine ⟨fun h => ?_, fun hmem h => ?_, fun h => ?_⟩
  · rw [modify_appointment, if_neg h]
  · rw [modify_appointment, if_pos hmem, findCancel_none_iff.2 h]
  · by_cases hmem : nt ∈ check_availability nd data
    · cases hf : findCancel name od ot data with
      | none => simp only [modify_appointment, if_pos hmem, hf]
      | some p =>
        obtain ⟨tgt, data₁⟩ := p
        exact absurd (by simp only [modify_appointment, if_pos hmem, hf]) h
    · simp only [modify_appointment, if_neg hmem]

/-- Witness for C5: on the empty store, moving a non-existent appointment
to the free slot 02:00 PM fails `NotFound` and changes nothing. -/
theorem claim_modify_failure_unchanged_witness :
    modify_appointment "Alice" "2025-10-27" "10:00 AM" "2025-10-27" "02:00 PM" "T1" []
      = (.notFound, []) :=
  (claim_modify_failure_unchanged "Alice" "2025-10-27" "10:00 AM" "2025-10-27"
    "02:00 PM" "T1" []).2.1 (by decide) (by decide)

/-- C6: `cancel(name, date, time)` flips the status of the first confirmed
record matching all three fields by exact string equality to cancelled and
reports success; when no confirmed record matches it fails `NotFound` and
the store is unchanged. -/
theorem claim_cancel_first_match (name date time : String)
    (data : List Appointment) :
    ((∀ a ∈ data, cancelMatch name date time a = false) →
      cancel_appointment name date time data = (.notFound, data)) ∧
    ((∃ a ∈ data, cancelMatch name date time a = true) →
      ∃ pre tgt post,
        data = pre ++ tgt :: post ∧
        (∀ b ∈ pre, cancelMatch name date time b = false) ∧
        cancelMatch name date time tgt = true ∧
        cancel_appointment name date time data =
          (.success, pre ++ ({ tgt with status := "cancelled" } :: post))) := by
  constructor
  · intro h
    simp only [cancel_appointment, findCancel_none_iff.2 h]
  · intro h
    obtain ⟨tgt, data', hf⟩ := findCancel_isSome h
    obtain ⟨pre, post, e1, e2, hpre, htgt⟩ := findCancel_some hf
    exact ⟨pre, tgt, post, e1, hpre, htgt, by simp only [cancel_appointment, hf, e2]⟩

/-- Witness for C6: cancelling the single confirmed record succeeds and
flips exactly its status. -/
theorem claim_cancel_first_match_witness :
    ∃ pre tgt post,
      ([⟨"Alice", "555", "2025-10-27", "10:00 AM", "checkup", "confirmed", "T0"⟩] :
          List Appointment) = pre ++ tgt :: post ∧
      (∀ b ∈ pre, cancelMatch "Alice" "2025-10-27" "10:00 AM" b = false) ∧
      cancelMatch "Alice" "2025-10-27" "10:00 AM" tgt = true ∧
      cancel_appointment "Alice" "2025-10-27" "10:00 AM"
          [⟨"Alice", "555", "2025-10-27", "10:00 AM", "checkup", "confirmed", "T0"⟩] =
        (.success, pre ++ ({ tgt with status := "cancelled" } :: post)) :=
  (claim_cancel_first_match "Alice" "2025-10-27" "10:00 AM"
      [⟨"Alice", "555", "2025-10-27", "10:00 AM", "checkup", "confirmed", "T0"⟩]).2
    ⟨⟨"Alice", "555", "2025-10-27", "10:00 AM", "checkup", "confirmed", "T0"⟩,
      by simp, by decide⟩

/-- C9: rescheduling a confirmed appointment onto its own current slot
always fails `SlotUnavailable` (the availability check counts the caller's
own confirmed record as occupying the target) and changes nothing. -/
theorem claim_modify_own_slot_fails (name d t now : String)
    (data : List Appointment)
    (h : ∃ a ∈ data, cancelMatch name d t a = true) :
    modify_appointment name d t d t now data = (.slotUnavailable, data) := by
  rw [modify_appointment, if_neg (not_avail_of_cancelMatch h)]

/-- Witness for C9: Alice's own 10:00 AM slot cannot be the target of her
reschedule. -/
theorem claim_modify_own_slot_fails_witness :
    modify_appointment "Alice" "2025-10-27" "10:00 AM" "2025-10-27" "10:00 AM" "T1"
        [⟨"Alice", "555", "2025-10-27", "10:00 AM", "checkup", "confirmed", "T0"⟩] =
      (.slotUnavailable,
        [⟨"Alice", "555", "2025-10-27", "10:00 AM", "checkup", "confirmed", "T0"⟩]) :=
  claim_modify_own_slot_fails "Alice" "2025-10-27" "10:00 AM" "T1" _
    ⟨⟨"Alice", "555", "2025-10-27", "10:00 AM", "checkup", "confirmed", "T0"⟩,
      by simp, by decide⟩

/-- Counterexample to C4 as stated: when the store already holds a
cancelled record at the old `(date, time)` (which book/cancel histories
produce), a successful `modify` leaves TWO cancelled records there, not
exactly one. -/
theorem claim_modify_exactly_one_cancelled_cex :
    (modify_appointment "Alice" "2025-10-27" "10:00 AM" "2025-10-27" "02:00 PM" "T2"
        [⟨"Alice", "555", "2025-10-27", "10:00 AM", "checkup", "cancelled", "T0"⟩,
         ⟨"Alice", "555", "2025-10-27", "10:00 AM", "checkup", "confirmed", "T1"⟩]).1
      = .success ∧
    cancelledCount "2025-10-27" "10:00 AM"
        (modify_appointment "Alice" "2025-10-27" "10:00 AM" "2025-10-27" "02:00 PM" "T2"
          [⟨"Alice", "555", "2025-10-27", "10:00 AM", "checkup", "cancelled", "T0"⟩,
           ⟨"Alice", "555", "2025-10-27", "10:00 AM", "checkup", "confirmed", "T1"⟩]).2
      ≠ 1 := by
  decide

/-- C4 (amended): a successful `modify` cancels the first confirmed record
matching `(name, old_date, old_time)` — the cancelled count at the old
`(date, time)` grows by exactly one (pre-existing cancelled history there
is retained) and the confirmed count there drops by one — and exactly one
confirmed record remains at the new `(date, time)`: the appended record,
which carries forward the matched record's customer_name, contact and
service with the new date/time and the fresh `created_at` (records of this
store variant have no email field to carry). -/
theorem claim_modify_success_effects (name od ot nd nt now : String)
    (data data' : List Appointment)
    (h : modify_appointment name od ot nd nt now data = (.success, data')) :
    cancelledCount od ot data' = cancelledCount od ot data + 1 ∧
    confirmedCount od ot data' + 1 = confirmedCount od ot data ∧
    confirmedCount nd nt data' = 1 ∧
    ∃ tgt ∈ data, cancelMatch name od ot tgt = true ∧
      data'.getLast? =
        some ⟨tgt.customer_name, tgt.contact, nd, nt, tgt.service, "confirmed", now⟩ := by
  by_cases hmem : nt ∈ check_availability nd data
  · cases hf : findCancel name od ot data with
    | none =>
      rw [modify_appointment, if_pos hmem, hf] at h
      simp at h
    | some p =>
      obtain ⟨tgt, data₁⟩ := p
      rw [modify_appointment, if_pos hmem, hf] at h
      have hd' : data' = data₁ ++
          [⟨tgt.customer_name, tgt.contact, nd, nt, tgt.service, "confirmed", now⟩] := by
        have := congrArg Prod.snd h
        simpa using this.symm
      obtain ⟨pre, post, e1, e2, hpre, htgt⟩ := findCancel_some hf
      obtain ⟨hnm, hdt, htm, hst⟩ := cancelMatch_fields htgt
      have h0 : confirmedCount nd nt data = 0 := confirmedCount_eq_zero hmem
      have hconf_tgt : confirmedAt od ot tgt = true := by
        simp [confirmedAt, hdt, htm, hst]
      have hge : 1 ≤ confirmedCount od ot data := by
        rw [e1, confirmedCount_middle, if_pos hconf_tgt]
        omega
      have hne : ¬(nd = od ∧ nt = ot) := by
        rintro ⟨rfl, rfl⟩
        omega
      have cOld : cancelledAt od ot tgt = false := by
        simp [cancelledAt, hst, show (("confirmed" : String) == "cancelled") = false from rfl]
      have cFlip : cancelledAt od ot { tgt with status := "cancelled" } = true := by
        simp [cancelledAt, hdt, htm]
      have cNew : cancelledAt od ot
          (⟨tgt.customer_name, tgt.contact, nd, nt, tgt.service, "confirmed", now⟩ :
            Appointment) = false := by
        simp [cancelledAt, show (("confirmed" : String) == "cancelled") = false from rfl]
      have fFlip : confirmedAt od ot { tgt with status := "cancelled" } = false :=
        confirmedAt_cancelled od ot tgt
      have fNewOld : confirmedAt od ot
          (⟨tgt.customer_name, tgt.contact, nd, nt, tgt.service, "confirmed", now⟩ :
            Appointment) = false := by
        rw [Bool.eq_false_iff]
        intro hb
        have hb' : nd = od ∧ nt = ot := by
          simpa [confirmedAt, Bool.and_eq_true, beq_iff_eq, and_assoc] using hb
        exact hne hb'
      have fNewNew : confirmedAt nd nt
          (⟨tgt.customer_name, tgt.contact, nd, nt, tgt.service, "confirmed", now⟩ :
            Appointment) = true := by
        simp [confirmedAt]
      have h1 : confirmedCount nd nt data₁ = 0 := by
        have := confirmedCount_findCancel_le nd nt hf
        omega
      have hcc_data : cancelledCount od ot data =
          cancelledCount od ot pre + 0 + cancelledCount od ot post := by
        rw [e1, cancelledCount_middle, cOld, ite_cond_false]
      have hcc_data₁ : cancelledCount od ot data₁ =
          cancelledCount od ot pre + 1 + cancelledCount od ot post := by
        rw [e2, cancelledCount_middle, cFlip, ite_cond_true]
      have hcf_data : confirmedCount od ot data =
          confirmedCount od ot pre + 1 + confirmedCount od ot post := by
        rw [e1, confirmedCount_middle, hconf_tgt, ite_cond_true]
      have hcf_data₁ : confirmedCount od ot data₁ =
          confirmedCount od ot pre + 0 + confirmedCount od ot post := by
        rw [e2, confirmedCount_middle, fFlip, ite_cond_false]
      subst hd'
      refine ⟨?_, ?_, ?_, tgt, ?_, htgt, ?_⟩
      · rw [cancelledCount_append, cNew, ite_cond_false]
        omega
      · rw [confirmedCount_append, fNewOld, ite_cond_false]
        omega
      · rw [confirmedCount_append, fNewNew, ite_cond_true, h1]
      · rw [e1]
        exact List.mem_append_right _ (List.mem_cons_self _ _)
      · exact List.getLast?_concat _
  · rw [modify_appointment, if_neg hmem] at h
    simp at h

/-- Witness for C4 (amended): moving Alice's only appointment from
10:00 AM to 02:00 PM. -/
theorem claim_modify_success_effects_witness :
    cancelledCount "2025-10-27" "10:00 AM"
        [⟨"Alice", "555", "2025-10-27", "10:00 AM", "checkup", "cancelled", "T0"⟩,
         ⟨"Alice", "555", "2025-10-27", "02:00 PM", "checkup", "confirmed", "T1"⟩] =
      cancelledCount "2025-10-27" "10:00 AM"
        [⟨"Alice", "555", "2025-10-27", "10:00 AM", "checkup", "confirmed", "T0"⟩] + 1 ∧
    confirmedCount "2025-10-27" "10:00 AM"
        [⟨"Alice", "555", "2025-10-27", "10:00 AM", "checkup", "cancelled", "T0"⟩,
         ⟨"Alice", "555", "2025-10-27", "02:00 PM", "checkup", "confirmed", "T1"⟩] + 1 =
      confirmedCount "2025-10-27" "10:00 AM"
        [⟨"Alice", "555", "2025-10-27", "10:00 AM", "checkup", "confirmed", "T0"⟩] ∧
    confirmedCount "2025-10-27" "02:00 PM"
        [⟨"Alice", "555", "2025-10-27", "10:00 AM", "checkup", "cancelled", "T0"⟩,
         ⟨"Alice", "555", "2025-10-27", "02:00 PM", "checkup", "confirmed", "T1"⟩] = 1 ∧
    ∃ tgt ∈
        ([⟨"Alice", "555", "2025-10-27", "10:00 AM", "checkup", "confirmed", "T0"⟩] :
          List Appointment),
      cancelMatch "Alice" "2025-10-27" "10:00 AM" tgt = true ∧
      ([⟨"Alice", "555", "2025-10-27", "10:00 AM", "checkup", "cancelled", "T0"⟩,
        ⟨"Alice", "555", "2025-10-27", "02:00 PM", "checkup", "confirmed",
          "T1"⟩] : List Appointment).getLast? =
        some ⟨tgt.customer_name, tgt.contact, "2025-10-27", "02:00 PM", tgt.service,
          "confirmed", "T1"⟩ :=
  claim_modify_success_effects "Alice" "2025-10-27" "10:00 AM" "2025-10-27" "02:00 PM"
    "T1" [⟨"Alice", "555", "2025-10-27", "10:00 AM", "checkup", "confirmed", "T0"⟩]
    [⟨"Alice", "555", "2025-10-27", "10:00 AM", "checkup", "cancelled", "T0"⟩,
     ⟨"Alice", "555", "2025-10-27", "02:00 PM", "checkup", "confirmed", "T1"⟩]
    (by decide)

/-- C10: a store file holding invalid JSON loads as the empty list, so every
operation behaves exactly as on an empty store — availability reports the
full grid free, cancel fails `NotFound`, modify never succeeds (and fails
`NotFound` whenever the new slot parses as free) — and the next successful
mutating operation (a book) overwrites the file with a store holding only
the new record, discarding all previously persisted appointments. -/
theorem claim_corrupt_store_resets :
    load_db .invalid = [] ∧
    (∀ date, fileCheckAvailability date .invalid = base_slots) ∧
    (∀ date, fileCheckAvailability date .invalid = fileCheckAvailability date (.valid [])) ∧
    (∀ name date time, fileCancel name date time .invalid = (.notFound, .invalid)) ∧
    (∀ name od ot nd nt now,
      (fileModify name od ot nd nt now .invalid).1 ≠ .success ∧
      (fileModify name od ot nd nt now .invalid).2 = .invalid) ∧
    (∀ name od ot nd nt now, nt ∈ check_availability nd [] →
      fileModify name od ot nd nt now .invalid = (.notFound, .invalid)) ∧
    (∀ name contact date time service now, time ∈ check_availability date [] →
      fileBook name contact date time service now .invalid =
        (.success, .valid [⟨name, contact, date, time, service, "confirmed", now⟩])) := by
  refine ⟨rfl, fun date => rfl, fun date => rfl, fun n d t => rfl, ?_, ?_, ?_⟩
  · intro n od ot nd nt now
    by_cases hmem : nt ∈ check_availability nd []
    · have hm : modify_appointment n od ot nd nt now [] = (.notFound, []) := by
        rw [modify_appointment, if_pos hmem]
        rfl
      rw [show fileModify n od ot nd nt now .invalid = (.notFound, .invalid) by
        simp only [fileModify, load_db, hm]]
      exact ⟨by simp, rfl⟩
    · have hm : modify_appointment n od ot nd nt now [] = (.slotUnavailable, []) := by
        rw [modify_appointment, if_neg hmem]
      rw [show fileModify n od ot nd nt now .invalid = (.slotUnavailable, .invalid) by
        simp only [fileModify, load_db, hm]]
      exact ⟨by simp, rfl⟩
  · intro n od ot nd nt now hmem
    have hm : modify_appointment n od ot nd nt now [] = (.notFound, []) := by
      rw [modify_appointment, if_pos hmem]
      rfl
    simp only [fileModify, load_db, hm]
  · intro name contact date time service now hmem
    have hb : book_appointment name contact date time service now [] =
        (.success, [⟨name, contact, date, time, service, "confirmed", now⟩]) := by
      rw [book_appointment, if_pos hmem]
      rfl
    simp only [fileBook, load_db, hb]

/-- Witness for C10: on a corrupt file, booking Alice's 10:00 AM checkup
succeeds and the file is rewritten to hold just that one record. -/
theorem claim_corrupt_store_resets_witness :
    fileBook "Alice" "555" "2025-10-27" "10:00 AM" "checkup" "T0" .invalid =
      (.success,
        .valid [⟨"Alice", "555", "2025-10-27", "10:00 AM", "checkup", "confirmed",
          "T0"⟩]) :=
  claim_corrupt_store_resets.2.2.2.2.2.2 "Alice" "555" "2025-10-27" "10:00 AM"
    "checkup" "T0" (by decide)

end SchedDb

namespace SchedGcal

/-! ### Helper lemmas about the calendar-backed engine -/

theorem slotStr_inj_on :
    ∀ h ∈ workHours, ∀ h' ∈ workHours, slotStr h' = slotStr h → h' = h := by
  decide

theorem mem_filter_map_slot (p : Nat → Bool) (h : Nat) (hh : h ∈ workHours) :
    slotStr h ∈ (workHours.filter p).map slotStr ↔ p h = true := by
  constructor
  · intro hm
    obtain ⟨h', h'mem, heq⟩ := List.mem_map.1 hm
    obtain ⟨h'w, h'p⟩ := List.mem_filter.1 h'mem
    rwa [slotStr_inj_on h hh h' h'w heq] at h'p
  · intro hp
    exact List.mem_map_of_mem _ (List.mem_filter.2 ⟨hh, hp⟩)

/-- C2: for a parsable date, `check_availability` returns the fixed
working-hours grid for that date minus the slots whose ISO start time is
taken by an event (the result is a sublist of the grid, hence in ascending
time-of-day order); a weekday date with no events yields exactly the 8
hourly slots 09:00 AM – 04:00 PM, and a Saturday or Sunday date yields the
empty sequence. -/
theorem claim_availability_grid (date : String) (y m d : Nat)
    (events : List GEvent) (hp : parseYMD date = some (y, m, d)) :
    (5 ≤ pyWeekday y m d → check_availability date events = []) ∧
    (pyWeekday y m d < 5 →
      List.Sublist (check_availability date events) gcalBaseSlots ∧
      (∀ h ∈ workHours,
        (slotStr h ∈ check_availability date events ↔
          ∀ e ∈ events, e.start ≠ some (toIso y m d h))) ∧
      (events = [] →
        check_availability date events =
          ["09:00 AM", "10:00 AM", "11:00 AM", "12:00 PM",
           "01:00 PM", "02:00 PM", "03:00 PM", "04:00 PM"])) := by
  constructor
  · intro hw
    simp only [check_availability, hp]
    rw [if_pos hw]
  · intro hw
    have hno : ¬5 ≤ pyWeekday y m d := by omega
    refine ⟨?_, ?_, ?_⟩
    · simp only [check_availability, hp]
      rw [if_neg hno]
      exact List.Sublist.map slotStr (List.filter_sublist _)
    · intro h hh
      simp only [check_availability, hp]
      rw [if_neg hno, mem_filter_map_slot _ h hh]
      simp
    · intro he
      subst he
      simp only [check_availability, hp]
      rw [if_neg hno]
      rfl

/-- Witness for C2: Monday 2025-10-27 with an empty calendar shows the full
8-slot grid; Saturday 2025-10-25 shows no slots. -/
theorem claim_availability_grid_witness :
    check_availability "2025-10-27" [] =
      ["09:00 AM", "10:00 AM", "11:00 AM", "12:00 PM",
       "01:00 PM", "02:00 PM", "03:00 PM", "04:00 PM"] ∧
    check_availability "2025-10-25" [] = [] :=
  ⟨((claim_availability_grid "2025-10-27" 2025 10 27 [] (by decide)).2
      (by decide)).2.2 rfl,
    (claim_availability_grid "2025-10-25" 2025 10 25 [] (by decide)).1 (by decide)⟩

/-- C7: `_get_duration` resolves the duration by case-insensitive substring
matching of the `SERVICES` keys against the lowercased, stripped input
(agreeing with the spec's description of the policy, empty input included)
and returns 60 minutes whenever no key is a substring. -/
theorem claim_duration_policy (s : String) :
    get_duration s = durationOfSpec s ∧
    ((∀ kv ∈ SERVICES, containsSub kv.1.toList (normService s) = false) →
      get_duration s = 60) := by
  constructor
  · by_cases hs : s = ""
    · subst hs
      decide
    · rw [get_duration, if_neg hs, durationOfSpec]
  · intro h
    have hfind :
        SERVICES.find? (fun kv => containsSub kv.1.toList (normService s)) = none :=
      List.find?_eq_none.2 (fun kv hkv => by
        rw [Bool.not_eq_true]
        simpa using h kv hkv)
    by_cases hs : s = ""
    · subst hs
      decide
    · rw [get_duration, if_neg hs, hfind]

/-- Witness for C7: no service key occurs in "acupuncture", so the default
of 60 minutes applies. -/
theorem claim_duration_policy_witness : get_duration "acupuncture" = 60 :=
  (claim_duration_policy "acupuncture").2 (by decide)

/-- C8: a date string that `strptime` cannot parse makes
`check_availability` return the empty sequence without raising — at this
layer indistinguishable from a date with no free slots, such as the
Saturday 2025-10-25. -/
theorem claim_unparsable_date_empty (s : String) (events : List GEvent)
    (h : parseYMD s = none) :
    check_availability s events = [] ∧
    check_availability s events = check_availability "2025-10-25" events := by
  have h1 : check_availability s events = [] := by
    simp only [check_availability, h]
  have h2 : check_availability "2025-10-25" events = [] := by
    simp only [check_availability,
      show parseYMD "2025-10-25" = some (2025, 10, 25) from by decide]
    rw [if_pos (by decide : 5 ≤ pyWeekday 2025 10 25)]
  exact ⟨h1, h1.trans h2.symm⟩

/-- Witness for C8: "not-a-date" yields no availability. -/
theorem claim_unparsable_date_empty_witness :
    check_availability "not-a-date" [] = [] :=
  (claim_unparsable_date_empty "not-a-date" [] (by decide)).1

end SchedGcal

/-- C3: in both engine variants, a `book` whose `time` is not in the
re-derived availability fails slot-unavailable and leaves the store
untouched; the calendar variant reports the first two available times as
alternatives — the empty list when the day has no availability at all. -/
theorem claim_book_unavailable_rejects
    (name contact date time service now : String)
    (events : List SchedGcal.GEvent) (data : List SchedDb.Appointment) :
    (time ∉ SchedGcal.check_availability date events →
      SchedGcal.book_appointment name contact date time service events =
        (.slotUnavailable ((SchedGcal.check_availability date events).take 2),
          events)) ∧
    (time ∉ SchedDb.check_availability date data →
      SchedDb.book_appointment name contact date time service now data =
        (.slotUnavailable, data)) := by
  constructor
  · intro h
    simp only [SchedGcal.book_appointment]
    rw [if_neg h]
    by_cases he : SchedGcal.check_availability date events = []
    · rw [if_pos he, he]
      rfl
    · rw [if_neg he]
  · intro h
    rw [SchedDb.book_appointment, if_neg h]

/-- Witness for C3: booking Saturday 2025-10-25 fails with an empty
alternatives list (no slots exist on weekends). -/
theorem claim_book_unavailable_rejects_witness :
    SchedGcal.book_appointment "Alice" "555" "2025-10-25" "10:00 AM" "checkup" [] =
      (.slotUnavailable [], []) :=
  (claim_book_unavailable_rejects "Alice" "555" "2025-10-25" "10:00 AM" "checkup"
    "T0" [] []).1 (by decide)
